import Mathlib

set_option maxRecDepth 4000000

/-!
Shallow embedding of the configuration-programming and black-box-retrieval
subsystem of `drivers/hwmon/pmbus/isl68137.c` (Renesas digital multiphase
voltage regulator driver), together with proofs about the claims of its
specification.

Buffers are modelled as `List Char` (text) and `List Nat` (bytes, reduced
mod 256 where the C code stores into `unsigned char`).  The i2c bus is an
oracle (`Dev`) indexed by the number of bus transactions issued so far;
the oracle also provides the `jiffies` clock observed by the polling loop.
Machine integers: C `int`/`s32`/`ssize_t` values are `Int`; C integer
division (truncation toward zero) is `Int.tdiv`.
-/

namespace Isl68137

/-- The NUL character, which in the C code terminates strings and is read
by out-of-range accesses directly past a `strsep`-terminated token. -/
def nulc : Char := Char.ofNat 0

/-- Value of one hexadecimal digit, as accepted by `kstrtou8(.., 16, ..)`:
`0-9`, `a-f`, `A-F`. -/
def hexVal (c : Char) : Option Nat :=
  if '0' ≤ c ∧ c ≤ '9' then some (c.toNat - 48)
  else if 'a' ≤ c ∧ c ≤ 'f' then some (c.toNat - 87)
  else if 'A' ≤ c ∧ c ≤ 'F' then some (c.toNat - 55)
  else none

/-- `raa_dmpvr2_hextou8`: builds the 3-byte string `s = [c0, c1, 0]` and runs
`kstrtou8(s, 16, ..)`.  If `c0` is NUL the string is empty (parse error);
if `c1` is NUL the string is the single digit `c0`. -/
def raa_dmpvr2_hextou8 (c0 c1 : Char) : Option Nat :=
  if c0 = nulc then none
  else if c1 = nulc then hexVal c0
  else match hexVal c0, hexVal c1 with
    | some a, some b => some (16 * a + b)
    | _, _ => none

/-- First counting pass of `raa_dmpvr2_parse_cfg` (lines 345-351): walk the
buffer; a newline at index `i` with `i < strlen(buf)-2` bumps the line
count, and also the command count unless the two following characters are
`'4'`, `'9'`.  Returns (extra line count, command count); the C code's
`lcnt` is `1 +` the first component. -/
def countNl : List Char → Nat × Nat
  | [] => (0, 0)
  | c :: rest =>
    let p := countNl rest
    if c = '\n' then
      match rest with
      | a :: b :: _ => (p.1 + 1, if a = '4' ∧ b = '9' then p.2 else p.2 + 1)
      | _ => p
    else p

/-- `strsep(&buf, "\n")` tokenisation: the list of `'\n'`-separated tokens
(`strsep` also returns a final empty token for a trailing newline). -/
def splitNl : List Char → List (List Char)
  | [] => [[]]
  | c :: rest =>
    if c = '\n' then [] :: splitNl rest
    else match splitNl rest with
      | t :: ts => (c :: t) :: ts
      | [] => [[c]]

/-- One command of the parsed configuration (`struct raa_dmpvr_cfg_cmd`).
`data` lists the payload bytes actually stored by the parse loop (the C
array has room for 4; the parser writes `len` entries). -/
structure RaaDmpvrCfgCmd where
  cmd : Nat
  len : Nat
  data : List Nat
deriving DecidableEq, Repr

/-- `struct raa_dmpvr2_cfg` (the `crc` field is never used by the code). -/
structure RaaDmpvr2Cfg where
  dev_id : List Nat
  dev_rev : List Nat
  slot_cnt : Int
  cmd_cnt : Nat
  cmds : List RaaDmpvrCfgCmd
deriving DecidableEq, Repr

/-- Header-line parse (lines 361-375): four hex pairs starting at column 8,
stored in reverse byte order (`j` runs from 3 down to 0). -/
def parseIdLine (l : List Char) : Option (List Nat) := do
  let b3 ← raa_dmpvr2_hextou8 (l.getD 8 nulc) (l.getD 9 nulc)
  let b2 ← raa_dmpvr2_hextou8 (l.getD 10 nulc) (l.getD 11 nulc)
  let b1 ← raa_dmpvr2_hextou8 (l.getD 12 nulc) (l.getD 13 nulc)
  let b0 ← raa_dmpvr2_hextou8 (l.getD 14 nulc) (l.getD 15 nulc)
  pure [b0, b1, b2, b3]

/-- Payload loop of the command parse (lines 389-395): `k` remaining bytes,
next byte at hex pair `(8+2j, 8+2j+1)`. -/
def parseData (l : List Char) : Nat → Nat → Option (List Nat)
  | 0, _ => some []
  | k + 1, j => do
    let b ← raa_dmpvr2_hextou8 (l.getD (8 + 2 * j) nulc) (l.getD (8 + 2 * j + 1) nulc)
    let rest ← parseData l k (j + 1)
    pure (b :: rest)

/-- Does the line start with the sentinel marker, i.e.
`strncmp(line, "49", 2) == 0`?  (`strncmp` stops at a NUL, and a missing
character reads the token's NUL terminator, so `getD` with NUL default
matches the C semantics.) -/
def starts49 (l : List Char) : Bool :=
  decide (l.getD 0 nulc = '4') && decide (l.getD 1 nulc = '9')

/-- One command line (lines 381-396): hex pair at column 2 is the declared
length, the stored length is `(declared - 3)` in `u8` arithmetic; hex pair
at column 6 is the target register; then `len` payload hex pairs from
column 8. -/
def parseOneCmd (l : List Char) : Option RaaDmpvrCfgCmd := do
  let d ← raa_dmpvr2_hextou8 (l.getD 2 nulc) (l.getD 3 nulc)
  let plen := (d + 253) % 256
  let c ← raa_dmpvr2_hextou8 (l.getD 6 nulc) (l.getD 7 nulc)
  let ds ← parseData l plen 0
  pure ⟨c, plen, ds⟩

/-- Command loop of the parse (lines 378-399).  Note that on entry `line`
still holds the second header line, so the loop starts from token 1; a
token of length `≤ dsta + 2 = 10` (or running out of tokens) ends the loop
successfully; sentinel lines are skipped. -/
def parseCmds : List (List Char) → List RaaDmpvrCfgCmd → Option (List RaaDmpvrCfgCmd)
  | [], acc => some acc
  | l :: rest, acc =>
    if l.length ≤ 10 then some acc
    else if starts49 l then parseCmds rest acc
    else match parseOneCmd l with
      | none => none
      | some c => parseCmds rest (acc ++ [c])

/-- `raa_dmpvr2_parse_cfg`.  Errors are the C negative errno values; every
failure path of the C function returns `-EINVAL = -22` (`kstrtou8` on two
characters can only fail with `-EINVAL`).  `slot_cnt` uses C `int`
division, i.e. truncation toward zero (`Int.tdiv`). -/
def raa_dmpvr2_parse_cfg (buf : List Char) : Except Int RaaDmpvr2Cfg :=
  let p := countNl buf
  let lcnt : Nat := 1 + p.1
  let ccnt : Nat := p.2
  let slot : Int := Int.tdiv ((lcnt : Int) - 290) 358
  if slot < 1 ∨ slot > 16 then .error (-22)
  else
    let toks := splitNl buf
    match parseIdLine (toks.getD 0 []) with
    | none => .error (-22)
    | some devId =>
      match parseIdLine (toks.getD 1 []) with
      | none => .error (-22)
      | some devRev =>
        match parseCmds (toks.drop 1) [] with
        | none => .error (-22)
        | some cmds => .ok ⟨devId, devRev, slot, ccnt, cmds⟩

/-! ## The bus model

Each i2c transaction is logged; the device is an oracle giving, for the
`n`-th transaction, the status returned by the underlying transfer call
and the bytes found in the caller's buffer afterwards (on a failed
transfer the C buffer holds unspecified/stale bytes — the oracle makes
that nondeterminism explicit).  `clock n` is the `jiffies` value observed
after `n` transactions have been issued. -/

/-- One logged bus transaction. -/
inductive Txn where
  | writeWord : Nat → Nat → Txn
  | write32 : Nat → Nat → Txn
  | read40 : Nat → Txn
  | read32 : Nat → Txn
deriving DecidableEq, Repr

/-- Bus state: number of transactions issued so far, and their log. -/
structure St where
  n : Nat
  log : List Txn
deriving DecidableEq, Repr

/-- Device oracle.  `resp n` gives (status of the underlying transfer call,
buffer bytes) for the `n`-th transaction; `clock n` is `jiffies` after `n`
transactions; `hz` is the kernel `HZ` constant. -/
structure Dev where
  resp : Nat → Int × List Nat
  clock : Nat → Nat
  hz : Nat

/-- Bytes the oracle puts in the `unsigned char` buffer of transaction `n`. -/
def readBytes (dv : Dev) (n : Nat) : List Nat :=
  (dv.resp n).2.map (· % 256)

/-- Issue one transaction: log it and consult the oracle. -/
def doTxn (dv : Dev) (s : St) (t : Txn) : Int × List Nat × St :=
  ((dv.resp s.n).1, readBytes dv s.n, ⟨s.n + 1, s.log ++ [t]⟩)

/-- `i2c_smbus_write_word_data`: returns 0 on success, negative errno on
failure; the oracle's status is that return value. -/
def i2c_smbus_write_word_data (dv : Dev) (s : St) (cmd val : Nat) : Int × St :=
  let r := doTxn dv s (.writeWord cmd val)
  (r.1, r.2.2)

/-- `raa_smbus_read40` (lines 196-221): a 1-byte address write plus 5-byte
read in one `i2c_transfer` of 2 messages; returns the raw `i2c_transfer`
result when it is not 2, else 0. -/
def raa_smbus_read40 (dv : Dev) (s : St) (cmd : Nat) : Int × List Nat × St :=
  let (t, bs, s') := doTxn dv s (.read40 cmd)
  (if t ≠ 2 then t else 0, bs, s')

/-- `raa_dmpvr2_smbus_read32` (lines 227-252): same pattern, 4-byte read. -/
def raa_dmpvr2_smbus_read32 (dv : Dev) (s : St) (cmd : Nat) : Int × List Nat × St :=
  let (t, bs, s') := doTxn dv s (.read32 cmd)
  (if t ≠ 2 then t else 0, bs, s')

/-- `raa_dmpvr2_smbus_write32` (lines 258-280): one 5-byte write message,
value encoded little-endian; returns the `i2c_transfer` result when it is
not 1, else 0. -/
def raa_dmpvr2_smbus_write32 (dv : Dev) (s : St) (cmd val : Nat) : Int × St :=
  let (t, _, s') := doTxn dv s (.write32 cmd val)
  (if t ≠ 1 then t else 0, s')

/-! ## Device verification and capacity check -/

/-- C `memcmp` over the first `n` bytes (the kernel's generic `memcmp`
returns the difference of the first differing bytes). -/
def memcmpN : List Nat → List Nat → Nat → Int
  | _, _, 0 => 0
  | xs, ys, k + 1 =>
    if xs.headD 0 = ys.headD 0 then memcmpN xs.tail ys.tail k
    else (xs.headD 0 : Int) - (ys.headD 0 : Int)

/-- `raa_dmpvr2_verify_device` (lines 407-424): two `read40`s
(`PMBUS_IC_DEVICE_ID = 0xad`, `PMBUS_IC_DEVICE_REV = 0xae`), then the
bitwise OR of `memcmp(cfg->dev_id, dev_id+1, 4)` and
`memcmp(cfg->dev_rev+3, dev_rev+4, 1)`. -/
def raa_dmpvr2_verify_device (dv : Dev) (s : St) (cfg : RaaDmpvr2Cfg) : Int × St :=
  let (t1, id5, s1) := raa_smbus_read40 dv s 0xad
  if t1 ≠ 0 then (t1, s1)
  else
    let (t2, rev5, s2) := raa_smbus_read40 dv s1 0xae
    if t2 ≠ 0 then (t2, s2)
    else (Int.lor (memcmpN cfg.dev_id (id5.drop 1) 4)
                  (memcmpN (cfg.dev_rev.drop 3) (rev5.drop 4) 1), s2)

/-- `raa_dmpvr2_check_cfg` (lines 426-437): select the NVM-count address
(`0xc2`) via `RAA_DMPVR2_DMA_ADDR = 0xc7`, read 4 bytes from
`RAA_DMPVR2_DMA_SEQ = 0xc6`, fail when `cfg->slot_cnt > data[0]`.
The statuses of both transactions are ignored by the C code. -/
def raa_dmpvr2_check_cfg (dv : Dev) (s : St) (cfg : RaaDmpvr2Cfg) : Int × St :=
  let (_t, s1) := i2c_smbus_write_word_data dv s 0xc7 0xc2
  let (_u, d, s2) := raa_dmpvr2_smbus_read32 dv s1 0xc6
  if (d.getD 0 0 : Int) < cfg.slot_cnt then (-22, s2) else (0, s2)

/-! ## Programming engine -/

/-- Command streaming loop of `raa_dmpvr2_send_cfg` (lines 446-469). -/
def sendCmds (dv : Dev) : St → List RaaDmpvrCfgCmd → Int × St
  | s, [] => (0, s)
  | s, c :: rest =>
    if c.len = 2 then
      let w := c.data.getD 0 0 ||| (c.data.getD 1 0) <<< 8
      let (t, s') := i2c_smbus_write_word_data dv s c.cmd w
      if t < 0 then (t, s') else sendCmds dv s' rest
    else if c.len = 4 then
      let w := c.data.getD 0 0 ||| (c.data.getD 1 0) <<< 8
               ||| (c.data.getD 2 0) <<< 16 ||| (c.data.getD 3 0) <<< 24
      let (t, s') := raa_dmpvr2_smbus_write32 dv s c.cmd w
      if t < 0 then (t, s') else sendCmds dv s' rest
    else (-22, s)

/-- `raa_dmpvr2_send_cfg` (lines 439-472). -/
def raa_dmpvr2_send_cfg (dv : Dev) (s : St) (cfg : RaaDmpvr2Cfg) : Int × St :=
  sendCmds dv s cfg.cmds

/-- Status-polling loop of `raa_dmpvr2_cfg_write_result` (line 487):
`while (data[0] == 0 && !time_after(jiffies, start + HZ + HZ))` read32.
`fuel` bounds the number of reads the model will take; `none` means the
bound was hit with the loop still running.  Exits with the last `data[0]`
and the state at the exiting check. -/
def pollLoop (dv : Dev) (deadline : Nat) : Nat → St → Nat → Option (Nat × St)
  | 0, s, d0 =>
    if d0 ≠ 0 ∨ deadline < dv.clock s.n then some (d0, s) else none
  | f + 1, s, d0 =>
    if d0 ≠ 0 ∨ deadline < dv.clock s.n then some (d0, s)
    else
      let r := raa_dmpvr2_smbus_read32 dv s 0xc5
      pollLoop dv deadline f r.2.2 (r.2.1.getD 0 0)

/-- Per-slot bank-status check of `raa_dmpvr2_cfg_write_result`
(lines 502-513): `k` slots left to check, current index `i`; bank 0 covers
slots 0..7, bank 1 slots 8..15, two 4-bit nibbles per byte; any nibble
different from 1 returns `-EIO = -5`. -/
def checkSlots (b0 b1 : List Nat) : Nat → Nat → Int
  | 0, _ => 0
  | k + 1, i =>
    let j := if i < 8 then i else i - 8
    let dp := if i < 8 then b0 else b1
    if (dp.getD (j / 2) 0 >>> (4 * (j % 2))) &&& 15 ≠ 1 then -5
    else checkSlots b0 b1 k (i + 1)

/-- `raa_dmpvr2_cfg_write_result` (lines 474-516): select the programming
status address, poll `RAA_DMPVR2_DMA_FIX = 0xc5` until the first byte is
nonzero or 2 seconds (`start + HZ + HZ` jiffies) elapse; `-ETIME = -62`
unless that byte is 1; then read the two bank-status words and check one
nibble per slot.  All transaction statuses are ignored by the C code. -/
def raa_dmpvr2_cfg_write_result (dv : Dev) (fuel : Nat) (s : St)
    (cfg : RaaDmpvr2Cfg) : Option (Int × St) :=
  let start := dv.clock s.n
  let (_t, s1) := i2c_smbus_write_word_data dv s 0xc7 0x0707
  match pollLoop dv (start + dv.hz + dv.hz) fuel s1 0 with
  | none => none
  | some (d0, s2) =>
    if d0 ≠ 1 then some (-62, s2)
    else
      let (_a, s3) := i2c_smbus_write_word_data dv s2 0xc7 0x0709
      let (_b, b0, s4) := raa_dmpvr2_smbus_read32 dv s3 0xc5
      let (_c, s5) := i2c_smbus_write_word_data dv s4 0xc7 0x070a
      let (_d, b1, s6) := raa_dmpvr2_smbus_read32 dv s5 0xc5
      some (checkSlots b0 b1 cfg.slot_cnt.toNat 0, s6)

/-! ## Black-box reader -/

/-- One `%02X` rendering: two uppercase hexadecimal characters. -/
def hexDigitU (n : Nat) : Char :=
  if n < 10 then Char.ofNat (48 + n) else Char.ofNat (55 + n)

/-- Two-character uppercase rendering of one byte. -/
def hexPair (b : Nat) : List Char := [hexDigitU (b / 16), hexDigitU (b % 16)]

/-- Rendering of one 4-byte word: 8 uppercase hex characters (bytes in
buffer order) followed by a newline. -/
def renderWord (bs : List Nat) : List Char :=
  hexPair (bs.getD 0 0) ++ hexPair (bs.getD 1 0) ++ hexPair (bs.getD 2 0)
    ++ hexPair (bs.getD 3 0) ++ ['\n']

/-- The 32-iteration read/render loop of `raa_dmpvr2_read_black_box`
(lines 293-301); statuses of the reads are ignored by the C code. -/
def bbLoop (dv : Dev) : St → Nat → List Char → List Char × St
  | s, 0, acc => (acc, s)
  | s, k + 1, acc =>
    let (_t, bs, s') := raa_dmpvr2_smbus_read32 dv s 0xc6
    bbLoop dv s' k (acc ++ renderWord bs)

/-- The full snapshot regeneration: window-select write to
`RAA_DMPVR2_BB_BASE_ADDR = 0xef80`, then 32 sequential 4-byte reads from
`RAA_DMPVR2_DMA_SEQ = 0xc6`. -/
def raa_dmpvr2_bb_out (dv : Dev) (s : St) : List Char × St :=
  let (_t, s1) := i2c_smbus_write_word_data dv s 0xc7 0xef80
  bbLoop dv s1 32 []

/-- `raa_dmpvr2_read_black_box` (lines 282-304): regenerate the snapshot,
then hand it to `simple_read_from_buffer(buf, len, ppos, &out, 288)`,
which returns `min(len, 288 - pos)` bytes from offset `pos` (0 when `pos ≥
288` or `len = 0`, `-EINVAL` for negative `pos`).  Returns (ssize_t
result, bytes copied to the user, bus state). -/
def raa_dmpvr2_read_black_box (dv : Dev) (s : St) (len : Nat) (pos : Int) :
    Int × List Char × St :=
  let (out, s') := raa_dmpvr2_bb_out dv s
  if pos < 0 then (-22, [], s')
  else if (288 : Int) ≤ pos ∨ len = 0 then (0, [], s')
  else
    let c := min len (288 - pos.toNat)
    ((c : Int), (out.drop pos.toNat).take c, s')

/-! ## The write_config endpoint -/

/-- `raa_dmpvr2_write_cfg` (lines 518-571): parse, verify identity, check
capacity, send, poll/verify; the first nonzero status is returned, and on
full success the byte count consumed (`ret` from
`simple_write_to_buffer`, i.e. `len`) is returned.  `none` only when the
poll-loop fuel runs out. -/
def raa_dmpvr2_write_cfg (dv : Dev) (fuel : Nat) (buf : List Char) :
    Option (Int × St) :=
  let s0 : St := ⟨0, []⟩
  match raa_dmpvr2_parse_cfg buf with
  | .error e => some (e, s0)
  | .ok cfg =>
    let (v, s1) := raa_dmpvr2_verify_device dv s0 cfg
    if v ≠ 0 then some (v, s1)
    else
      let (c, s2) := raa_dmpvr2_check_cfg dv s1 cfg
      if c ≠ 0 then some (c, s2)
      else
        let (w, s3) := raa_dmpvr2_send_cfg dv s2 cfg
        if w ≠ 0 then some (w, s3)
        else (raa_dmpvr2_cfg_write_result dv fuel s3 cfg).map
          fun r => (if r.1 ≠ 0 then r.1 else (buf.length : Int), r.2)

/-! ## Concrete configuration blobs

A minimal 1-slot well-formed blob has `290 + 358 = 648` lines: two header
lines (the second, like all device-identity lines, is of the sentinel
command type `49` — the command loop starts from that very line), sentinel
filler lines, and command lines.  Lines are joined with `'\n'` and the
blob does not end in a newline. -/

/-- Join lines with single `'\n'` separators (no trailing newline). -/
def joinNl : List (List Char) → List Char
  | [] => []
  | [l] => l
  | l :: ls => l ++ '\n' :: joinNl ls

/-- The suffix a non-final line contributes after itself in `joinNl`. -/
def tailNl : List (List Char) → List Char
  | [] => []
  | x :: xs => '\n' :: joinNl (x :: xs)

/-- Device-id header line: bytes `04 03 02 01` at column 8, stored
reversed, so `dev_id = [1, 2, 3, 4]`. -/
def hdrIdLine : List Char := "0000000004030201".toList

/-- Device-revision header line, sentinel type `49`; stored reversed, so
`dev_rev = [5, 0, 0, 0]`. -/
def hdrRevLine : List Char := "4900000000000005".toList

/-- An 11-character sentinel filler line (long enough that the command
loop does not stop early). -/
def sentinelLine : List Char := "49000000000".toList

/-- A proper command line: declared length `07` (payload 4), register
`10`, payload `AA BB CC DD`. -/
def cmdLine4 : List Char := "00070010AABBCCDD".toList

/-- A command line with declared length `06`, decoding to payload length
3 — a length the parser accepts although it is neither 2 nor 4. -/
def cmdLine3 : List Char := "00060010AABBCC".toList

/-- A blob skeleton: the two headers, `pad` sentinel lines, and one final
command line. -/
def mkLines (cmdLine : List Char) (pad : Nat) : List (List Char) :=
  hdrIdLine :: hdrRevLine :: (List.replicate pad sentinelLine ++ [cmdLine])

/-- Well-formed 648-line blob: 1 slot, 1 command. -/
def blob648 : List Char := joinNl (mkLines cmdLine4 645)

/-- 649-line blob: one extra sentinel line, so `total_lines - 290 = 359`
is not a multiple of 358; still parsed successfully. -/
def blob649 : List Char := joinNl (mkLines cmdLine4 646)

/-- 648-line blob whose single command has payload length 3. -/
def blobLen3 : List Char := joinNl (mkLines cmdLine3 645)

/-- The configuration `blob648` parses to. -/
def cfg648 : RaaDmpvr2Cfg :=
  ⟨[1, 2, 3, 4], [5, 0, 0, 0], 1, 1, [⟨0x10, 4, [0xaa, 0xbb, 0xcc, 0xdd]⟩]⟩

/-! ## Well-formedness of a configuration blob

A blob with `k` slots, in the sense of §6 of the specification: `290 +
358·k` lines, each at least 11 characters (so the command loop processes
every line) and newline-free; the two header lines carry four hex pairs
at column 8 and the second one is of sentinel type `49` (device-identity
lines use the sentinel command type); every further line is either a
sentinel line or a command line whose declared length decodes to at most
4 payload bytes, all in valid hex. -/

/-- Every line of a blob must satisfy this: long enough for the command
loop and free of embedded newlines. -/
def lineOK (l : List Char) : Bool :=
  decide (11 ≤ l.length) && l.all fun c => decide (c ≠ '\n')

/-- A header line: four hex pairs at columns 8..15. -/
def headLineOK (l : List Char) : Bool :=
  (raa_dmpvr2_hextou8 (l.getD 8 nulc) (l.getD 9 nulc)).isSome &&
  (raa_dmpvr2_hextou8 (l.getD 10 nulc) (l.getD 11 nulc)).isSome &&
  (raa_dmpvr2_hextou8 (l.getD 12 nulc) (l.getD 13 nulc)).isSome &&
  (raa_dmpvr2_hextou8 (l.getD 14 nulc) (l.getD 15 nulc)).isSome

/-- A command line: hex pairs at columns 2 and 6, a decoded payload length
of at most 4 (the size of the C `data` array), and hex pairs for the whole
payload. -/
def cmdLineOK (l : List Char) : Bool :=
  match raa_dmpvr2_hextou8 (l.getD 2 nulc) (l.getD 3 nulc) with
  | none => false
  | some d =>
    let plen := (d + 253) % 256
    decide (plen ≤ 4) &&
    (raa_dmpvr2_hextou8 (l.getD 6 nulc) (l.getD 7 nulc)).isSome &&
    (List.range plen).all fun j =>
      (raa_dmpvr2_hextou8 (l.getD (8 + 2 * j) nulc) (l.getD (8 + 2 * j + 1) nulc)).isSome

/-- Well-formed `k`-slot configuration blob, given as its list of lines. -/
def wfBlob (lines : List (List Char)) (k : Nat) : Bool :=
  decide (1 ≤ k) && decide (k ≤ 16) &&
  decide (lines.length = 290 + 358 * k) &&
  lines.all lineOK &&
  headLineOK (lines.getD 0 []) && headLineOK (lines.getD 1 []) &&
  starts49 (lines.getD 1 []) &&
  (lines.drop 2).all fun l => starts49 l || cmdLineOK l

/-! ## Further definitions used by the claim theorems -/

/-- The list of command lengths of a successfully parsed blob. -/
def parsedLens (buf : List Char) : Option (List Nat) :=
  (raa_dmpvr2_parse_cfg buf).toOption.map fun c => c.cmds.map (·.len)

/-- The slot-status nibble as the specification describes it: slot `i < 8`
reads `(bank0_byte[i/2] >> (4*(i%2))) & 0xF`; slot `i ≥ 8` reads the
equivalent nibble of bank 1 at index `i - 8`. -/
def nibbleSpec (b0 b1 : List Nat) (i : Nat) : Nat :=
  if i < 8 then (b0.getD (i / 2) 0 >>> (4 * (i % 2))) &&& 15
  else (b1.getD ((i - 8) / 2) 0 >>> (4 * ((i - 8) % 2))) &&& 15

/-- A device whose reported identity (`[0, 2, 3, 4]` after the length
byte) differs from `cfg648`'s `dev_id = [1, 2, 3, 4]` in the first byte
only, so that `memcmp` returns the positive value `1 - 0 = 1`.  All
transfers succeed. -/
def devMism : Dev :=
  ⟨fun n => if n = 0 then (2, [0, 0, 2, 3, 4]) else (2, [0, 0, 0, 0, 0]),
   fun _ => 0, 100⟩

/-- A device on which every bus transfer fails with `-EIO`-style status
`-5`; the bytes model whatever an untouched/stale buffer holds (here a
reported free-slot count of 16). -/
def devFail : Dev := ⟨fun _ => (-5, [16, 0, 0, 0]), fun _ => 0, 100⟩

/-- A device that always answers status-poll reads with first byte 2
(nonzero but not 1) while its clock never advances. -/
def devBusy2 : Dev := ⟨fun _ => (2, [2, 0, 0, 0]), fun _ => 0, 100⟩

/-- A device that always answers reads with all-zero bytes, with a clock
that advances by one jiffy per transaction and `HZ = 1`. -/
def devZeroTick : Dev := ⟨fun _ => (2, [0, 0, 0, 0]), fun n => n, 1⟩

/-- A device whose transfers all succeed with all-zero data and a frozen
clock. -/
def devZero : Dev := ⟨fun _ => (2, [0, 0, 0, 0]), fun _ => 0, 100⟩

/-- A device for the slot-status scenario: the first poll read reports
completion (first byte 1), bank 0 reads `[0x11, 0x21, 0, 0]` (slot
nibbles 1, 1, 1, 2, ...), bank 1 reads zero. -/
def devBanks : Dev :=
  ⟨fun n =>
    if n = 1 then (2, [1, 0, 0, 0])
    else if n = 3 then (2, [0x11, 0x21, 0, 0])
    else (2, [0, 0, 0, 0]),
   fun _ => 0, 100⟩

/-- A 4-slot configuration record (only `slot_cnt` matters to
`raa_dmpvr2_cfg_write_result`). -/
def cfgSlots4 : RaaDmpvr2Cfg := ⟨[1, 2, 3, 4], [5, 0, 0, 0], 4, 0, []⟩

/-! ## Lemmas about the two scanning passes -/

theorem lineOK_iff (l : List Char) :
    lineOK l = true ↔ 11 ≤ l.length ∧ ∀ c ∈ l, c ≠ '\n' := by
  simp [lineOK]

theorem countNl_append_of_no_nl (l r : List Char) (h : ∀ c ∈ l, c ≠ '\n') :
    countNl (l ++ r) = countNl r := by
  induction l with
  | nil => rfl
  | cons c t ih =>
    have hc : c ≠ '\n' := h c (by simp)
    have ht : ∀ x ∈ t, x ≠ '\n' := fun x hx => h x (by simp [hx])
    simp [countNl, hc, ih ht]

theorem joinNl_cons (l : List Char) (ls : List (List Char)) :
    joinNl (l :: ls) = l ++ tailNl ls := by
  cases ls with
  | nil => simp [joinNl, tailNl]
  | cons x xs => rfl

theorem starts49_cons (a b : Char) (t : List Char) :
    starts49 (a :: b :: t) = (decide (a = '4') && decide (b = '9')) := rfl

theorem countNl_nl_cons (a b : Char) (r : List Char) :
    countNl ('\n' :: a :: b :: r) =
      ((countNl (a :: b :: r)).1 + 1,
       if a = '4' ∧ b = '9' then (countNl (a :: b :: r)).2
       else (countNl (a :: b :: r)).2 + 1) := rfl

theorem countNl_joinNl (lines : List (List Char)) (hne : lines ≠ [])
    (h : ∀ l ∈ lines, 2 ≤ l.length ∧ ∀ c ∈ l, c ≠ '\n') :
    countNl (joinNl lines) =
      (lines.length - 1, ((lines.drop 1).filter fun l => !starts49 l).length) := by
  induction lines with
  | nil => exact absurd rfl hne
  | cons l ls ih =>
    cases ls with
    | nil =>
      have hl := (h l (by simp)).2
      have h0 : countNl (joinNl [l]) = countNl ([] : List Char) := by
        simpa [joinNl] using countNl_append_of_no_nl l [] hl
      simp [h0, countNl]
    | cons l2 ls2 =>
      obtain ⟨hlen2, hnl2⟩ := h l2 (by simp)
      rcases l2 with _ | ⟨a, _ | ⟨b, t⟩⟩
      · simp at hlen2
      · simp at hlen2
      · have hl := (h l (by simp)).2
        have hshape : joinNl ((a :: b :: t) :: ls2) = a :: b :: (t ++ tailNl ls2) := by
          simp [joinNl_cons]
        have hstep : countNl (joinNl (l :: (a :: b :: t) :: ls2)) =
            countNl ('\n' :: a :: b :: (t ++ tailNl ls2)) := by
          rw [show joinNl (l :: (a :: b :: t) :: ls2)
                = l ++ '\n' :: joinNl ((a :: b :: t) :: ls2) from rfl,
              countNl_append_of_no_nl l _ hl, hshape]
        have hp : countNl (a :: b :: (t ++ tailNl ls2)) =
            (((a :: b :: t) :: ls2).length - 1,
             ((((a :: b :: t) :: ls2).drop 1).filter fun l => !starts49 l).length) := by
          have := ih (by simp) (fun x hx => h x (by simp [hx]))
          rwa [hshape] at this
        rw [hstep, countNl_nl_cons, hp]
        by_cases h4 : a = '4'
        · by_cases h9 : b = '9'
          · subst h4; subst h9
            simp [starts49_cons, List.filter_cons]
          · simp [starts49_cons, h9, List.filter_cons]
        · simp [starts49_cons, h4, List.filter_cons]

theorem splitNl_of_no_nl (l : List Char) (h : ∀ c ∈ l, c ≠ '\n') :
    splitNl l = [l] := by
  induction l with
  | nil => rfl
  | cons c t ih =>
    have hc : c ≠ '\n' := h c (by simp)
    have ht : ∀ x ∈ t, x ≠ '\n' := fun x hx => h x (by simp [hx])
    simp [splitNl, hc, ih ht]

theorem splitNl_append_nl (l r : List Char) (h : ∀ c ∈ l, c ≠ '\n') :
    splitNl (l ++ '\n' :: r) = l :: splitNl r := by
  induction l with
  | nil => simp [splitNl]
  | cons c t ih =>
    have hc : c ≠ '\n' := h c (by simp)
    have ht : ∀ x ∈ t, x ≠ '\n' := fun x hx => h x (by simp [hx])
    simp [splitNl, hc, ih ht]

theorem splitNl_joinNl (lines : List (List Char)) (hne : lines ≠ [])
    (h : ∀ l ∈ lines, ∀ c ∈ l, c ≠ '\n') :
    splitNl (joinNl lines) = lines := by
  induction lines with
  | nil => exact absurd rfl hne
  | cons l ls ih =>
    cases ls with
    | nil => simpa [joinNl] using splitNl_of_no_nl l (h l (by simp))
    | cons l2 ls2 =>
      have : joinNl (l :: l2 :: ls2) = l ++ '\n' :: joinNl (l2 :: ls2) := rfl
      rw [this, splitNl_append_nl l _ (h l (by simp)),
          ih (by simp) (fun x hx => h x (by simp [hx]))]

/-! ## Success of the line parsers on well-formed lines -/

theorem parseIdLine_isSome (l : List Char) (h : headLineOK l = true) :
    ∃ v, parseIdLine l = some v := by
  simp only [headLineOK, Bool.and_eq_true, Option.isSome_iff_exists] at h
  obtain ⟨⟨⟨⟨v3, h3⟩, ⟨v2, h2⟩⟩, ⟨v1, h1⟩⟩, ⟨v0, h0⟩⟩ := h
  refine ⟨[v0, v1, v2, v3], ?_⟩
  simp only [parseIdLine]
  rw [h3, h2, h1, h0]
  rfl

theorem parseData_isSome (l : List Char) :
    ∀ k j, (∀ t, t < k →
        (raa_dmpvr2_hextou8 (l.getD (8 + 2 * (j + t)) nulc)
          (l.getD (8 + 2 * (j + t) + 1) nulc)).isSome = true) →
      ∃ ds, parseData l k j = some ds ∧ ds.length = k := by
  intro k
  induction k with
  | zero => exact fun j _ => ⟨[], rfl, rfl⟩
  | succ k ih =>
    intro j h
    have h0 := h 0 (Nat.succ_pos _)
    rw [Option.isSome_iff_exists] at h0
    simp only [Nat.add_zero] at h0
    obtain ⟨b, hb⟩ := h0
    obtain ⟨ds, hds, hlen⟩ := ih (j + 1) (fun t ht => by
      have hx := h (t + 1) (Nat.succ_lt_succ ht)
      have e : j + (t + 1) = j + 1 + t := by omega
      rwa [e] at hx)
    refine ⟨b :: ds, ?_, by simp [hlen]⟩
    simp only [parseData]
    rw [hb, hds]
    rfl

theorem parseOneCmd_isSome (l : List Char) (h : cmdLineOK l = true) :
    ∃ c, parseOneCmd l = some c := by
  unfold cmdLineOK at h
  cases hd : raa_dmpvr2_hextou8 (l.getD 2 nulc) (l.getD 3 nulc) with
  | none => rw [hd] at h; exact absurd h (by simp)
  | some d =>
    rw [hd] at h
    simp only [Bool.and_eq_true, decide_eq_true_eq, Option.isSome_iff_exists,
      List.all_eq_true, List.mem_range] at h
    obtain ⟨⟨_, c, hc⟩, hall⟩ := h
    obtain ⟨ds, hds, _⟩ := parseData_isSome l ((d + 253) % 256) 0 (fun t ht => by
      have hx := hall t ht
      rw [Option.isSome_iff_exists]
      simpa using hx)
    refine ⟨⟨c, (d + 253) % 256, ds⟩, ?_⟩
    simp only [parseOneCmd]
    rw [hd]
    simp only [Option.bind_eq_bind, Option.some_bind]
    rw [hc]
    simp only [Option.some_bind]
    rw [hds]
    rfl

theorem parseCmds_ok :
    ∀ (toks : List (List Char)) (acc : List RaaDmpvrCfgCmd),
      (∀ l ∈ toks, lineOK l = true ∧ (starts49 l = true ∨ cmdLineOK l = true)) →
      ∃ cs, parseCmds toks acc = some (acc ++ cs) ∧
        cs.length = (toks.filter fun l => !starts49 l).length := by
  intro toks
  induction toks with
  | nil => exact fun acc _ => ⟨[], by simp [parseCmds], rfl⟩
  | cons l rest ih =>
    intro acc h
    obtain ⟨hlok, hcase⟩ := h l (by simp)
    have hrest : ∀ x ∈ rest, lineOK x = true ∧ (starts49 x = true ∨ cmdLineOK x = true) :=
      fun x hx => h x (by simp [hx])
    have hlen : ¬ l.length ≤ 10 := by
      have := ((lineOK_iff l).mp hlok).1
      omega
    by_cases h49 : starts49 l = true
    · obtain ⟨cs, hcs, hcnt⟩ := ih acc hrest
      refine ⟨cs, ?_, ?_⟩
      · simp [parseCmds, hlen, h49, hcs]
      · simp [List.filter_cons, h49, hcnt]
    · have hcmd : cmdLineOK l = true := by
        rcases hcase with h' | h'
        · exact absurd h' h49
        · exact h'
      obtain ⟨c, hc⟩ := parseOneCmd_isSome l hcmd
      obtain ⟨cs, hcs, hcnt⟩ := ih (acc ++ [c]) hrest
      refine ⟨c :: cs, ?_, ?_⟩
      · have h49f : starts49 l = false := by
          cases hx : starts49 l
          · rfl
          · exact absurd hx h49
        simp [parseCmds, hlen, h49f, hc, hcs]
      · have h49f : starts49 l = false := by
          cases hx : starts49 l
          · rfl
          · exact absurd hx h49
        simp [List.filter_cons, h49f, hcnt]

/-- Claim C1: for every well-formed configuration blob with `k` slots the
parser succeeds, the parsed `slot_cnt` is `k`, and both the recorded
command count and the list of parsed commands have length equal to the
number of non-header lines that are not sentinel lines. -/
theorem c1_parse_roundtrip (lines : List (List Char)) (k : Nat)
    (h : wfBlob lines k = true) :
    ∃ cfg, raa_dmpvr2_parse_cfg (joinNl lines) = .ok cfg ∧
      cfg.slot_cnt = (k : Int) ∧
      cfg.cmd_cnt = ((lines.drop 2).filter fun l => !starts49 l).length ∧
      cfg.cmds.length = ((lines.drop 2).filter fun l => !starts49 l).length := by
  simp only [wfBlob, Bool.and_eq_true, decide_eq_true_eq, List.all_eq_true] at h
  obtain ⟨⟨⟨⟨⟨⟨⟨hk1, hk16⟩, hlen⟩, hall⟩, hh0⟩, hh1⟩, h49h⟩, hcmd⟩ := h
  have h2le : 2 ≤ lines.length := by omega
  rcases lines with _ | ⟨l0, _ | ⟨l1, rest⟩⟩
  · simp at h2le
  · simp at h2le
  · have hallOK : ∀ l ∈ l0 :: l1 :: rest, 2 ≤ l.length ∧ ∀ c ∈ l, c ≠ '\n' := by
      intro l hl
      have hx := (lineOK_iff l).mp (hall l hl)
      exact ⟨by omega, hx.2⟩
    have hnl : ∀ l ∈ l0 :: l1 :: rest, ∀ c ∈ l, c ≠ '\n' :=
      fun l hl => ((lineOK_iff l).mp (hall l hl)).2
    have hcount := countNl_joinNl (l0 :: l1 :: rest) (by simp) hallOK
    have hsplit := splitNl_joinNl (l0 :: l1 :: rest) (by simp) hnl
    obtain ⟨v0, hv0⟩ := parseIdLine_isSome l0 hh0
    obtain ⟨v1, hv1⟩ := parseIdLine_isSome l1 hh1
    have h49l1 : starts49 l1 = true := h49h
    have htoks : ∀ l ∈ l1 :: rest,
        lineOK l = true ∧ (starts49 l = true ∨ cmdLineOK l = true) := by
      intro l hl
      rcases List.mem_cons.mp hl with rfl | hl'
      · exact ⟨hall _ (by simp), Or.inl h49l1⟩
      · have hc := hcmd l hl'
        rw [Bool.or_eq_true] at hc
        exact ⟨hall _ (by simp [hl']), hc⟩
    obtain ⟨cs, hcs, hcnt⟩ := parseCmds_ok (l1 :: rest) [] htoks
    have hlen' : (l0 :: l1 :: rest).length = 290 + 358 * k := hlen
    have e1 : (1 + ((l0 :: l1 :: rest).length - 1) : Nat) = 290 + 358 * k := by
      simp only [List.length_cons] at hlen' ⊢
      omega
    have e2 : ((290 + 358 * k : Nat) : Int) - 290 = 358 * (k : Int) := by
      push_cast
      ring
    have e3 : Int.tdiv (358 * (k : Int)) 358 = (k : Int) :=
      Int.mul_tdiv_cancel_left _ (by norm_num)
    have hcond : ¬ (Int.tdiv (((290 + 358 * k : Nat) : Int) - 290) 358 < 1 ∨
        Int.tdiv (((290 + 358 * k : Nat) : Int) - 290) 358 > 16) := by
      rw [e2, e3]
      omega
    have hg0 : (l0 :: l1 :: rest).getD 0 [] = l0 := rfl
    have hg1 : (l0 :: l1 :: rest).getD 1 [] = l1 := rfl
    have hdr1 : (l0 :: l1 :: rest).drop 1 = l1 :: rest := rfl
    simp only [raa_dmpvr2_parse_cfg]
    rw [hcount, hsplit]
    simp only [hg0, hg1, hdr1, e1]
    rw [if_neg hcond, hv0]
    simp only []
    rw [hv1]
    simp only []
    rw [hcs]
    simp only [List.nil_append]
    refine ⟨_, rfl, ?_, ?_, ?_⟩
    · show Int.tdiv (((290 + 358 * k : Nat) : Int) - 290) 358 = (k : Int)
      rw [e2, e3]
    · show ((l1 :: rest).filter fun l => !starts49 l).length =
        (((l0 :: l1 :: rest).drop 2).filter fun l => !starts49 l).length
      simp [List.filter_cons, h49l1]
    · show cs.length =
        (((l0 :: l1 :: rest).drop 2).filter fun l => !starts49 l).length
      rw [hcnt]
      simp [List.filter_cons, h49l1]

/-! ## Byte-comparison and bitwise-OR lemmas -/

theorem getD_drop_nat (l : List Nat) (k i : Nat) :
    (l.drop k).getD i 0 = l.getD (k + i) 0 := by
  induction k generalizing l with
  | zero => simp
  | succ k ih =>
    cases l with
    | nil => simp
    | cons a t =>
      have he : k + 1 + i = (k + i) + 1 := by omega
      rw [he]
      simp only [List.drop_succ_cons, List.getD_cons_succ]
      exact ih t

theorem headD_eq_getD (l : List Nat) : l.headD 0 = l.getD 0 0 := by
  cases l <;> rfl

theorem tail_getD (l : List Nat) (i : Nat) :
    l.tail.getD i 0 = l.getD (i + 1) 0 := by
  cases l <;> rfl

theorem memcmpN_succ (xs ys : List Nat) (n : Nat) :
    memcmpN xs ys (n + 1) =
      if xs.headD 0 = ys.headD 0 then memcmpN xs.tail ys.tail n
      else (xs.headD 0 : Int) - (ys.headD 0 : Int) := rfl

theorem memcmpN_eq_zero_iff (n : Nat) :
    ∀ xs ys : List Nat,
      memcmpN xs ys n = 0 ↔ ∀ i < n, xs.getD i 0 = ys.getD i 0 := by
  induction n with
  | zero =>
    intro xs ys
    simp [memcmpN]
  | succ n ih =>
    intro xs ys
    by_cases h : xs.headD 0 = ys.headD 0
    · rw [memcmpN_succ, if_pos h, ih]
      constructor
      · intro ha i hi
        cases i with
        | zero =>
          rw [← headD_eq_getD, ← headD_eq_getD]
          exact h
        | succ j =>
          have hj := ha j (Nat.lt_of_succ_lt_succ hi)
          rw [← tail_getD, ← tail_getD]
          exact hj
      · intro ha i hi
        have hj := ha (i + 1) (Nat.succ_lt_succ hi)
        rw [tail_getD, tail_getD]
        exact hj
    · rw [memcmpN_succ, if_neg h]
      constructor
      · intro hz
        exfalso
        have he : (xs.headD 0 : Int) = (ys.headD 0 : Int) := by omega
        exact h (by exact_mod_cast he)
      · intro ha
        exfalso
        have h0 := ha 0 (Nat.succ_pos _)
        rw [← headD_eq_getD, ← headD_eq_getD] at h0
        exact h h0

theorem nat_lor_eq_zero (m n : Nat) (h : m ||| n = 0) : m = 0 ∧ n = 0 := by
  constructor
  · apply Nat.eq_of_testBit_eq
    intro i
    rw [Nat.zero_testBit]
    have hx := congrArg (Nat.testBit · i) h
    simp only [Nat.testBit_lor, Nat.zero_testBit, Bool.or_eq_false_iff] at hx
    exact hx.1
  · apply Nat.eq_of_testBit_eq
    intro i
    rw [Nat.zero_testBit]
    have hx := congrArg (Nat.testBit · i) h
    simp only [Nat.testBit_lor, Nat.zero_testBit, Bool.or_eq_false_iff] at hx
    exact hx.2

theorem int_lor_eq_zero_iff (a b : Int) : Int.lor a b = 0 ↔ a = 0 ∧ b = 0 := by
  cases a with
  | ofNat m =>
    cases b with
    | ofNat n =>
      simp only [Int.lor]
      constructor
      · intro h
        have hmn : m ||| n = 0 := by exact_mod_cast h
        obtain ⟨hm, hn⟩ := nat_lor_eq_zero m n hmn
        subst hm; subst hn
        exact ⟨rfl, rfl⟩
      · rintro ⟨h1, h2⟩
        have hm : m = 0 := Int.ofNat_eq_zero.mp h1
        have hn : n = 0 := Int.ofNat_eq_zero.mp h2
        subst hm; subst hn
        rfl
    | negSucc n => simp [Int.lor]
  | negSucc m => cases b <;> simp [Int.lor]

/-- Claim C1 witness: the concrete 648-line blob is well-formed with one
slot and the parser behaves as the round-trip theorem states. -/
theorem c1_parse_roundtrip_witness :
    wfBlob (mkLines cmdLine4 645) 1 = true ∧
    (∃ cfg, raa_dmpvr2_parse_cfg (joinNl (mkLines cmdLine4 645)) = .ok cfg ∧
      cfg.slot_cnt = ((1 : Nat) : Int) ∧
      cfg.cmd_cnt = (((mkLines cmdLine4 645).drop 2).filter fun l => !starts49 l).length ∧
      cfg.cmds.length = (((mkLines cmdLine4 645).drop 2).filter fun l => !starts49 l).length) :=
  ⟨by decide, c1_parse_roundtrip (mkLines cmdLine4 645) 1 (by decide)⟩

/-- Claim C2: if the parsed `dev_id` differs in some byte from the live
device id (bytes 1..4 of the `0xad` read), or the parsed `dev_rev[3]`
differs from the live revision byte (byte 4 of the `0xae` read), then
`raa_dmpvr2_write_cfg` stops with a nonzero status and the bus log holds
only the two identity reads — `raa_dmpvr2_send_cfg` is never invoked. -/
theorem c2_identity_gating (dv : Dev) (buf : List Char) (cfg : RaaDmpvr2Cfg)
    (fuel : Nat)
    (hparse : raa_dmpvr2_parse_cfg buf = .ok cfg)
    (hid : (dv.resp 0).1 = 2) (hrev : (dv.resp 1).1 = 2)
    (hmism : (∃ i, i < 4 ∧ cfg.dev_id.getD i 0 ≠ (readBytes dv 0).getD (i + 1) 0) ∨
             cfg.dev_rev.getD 3 0 ≠ (readBytes dv 1).getD 4 0) :
    ∃ r s, raa_dmpvr2_write_cfg dv fuel buf = some (r, s) ∧ r ≠ 0 ∧
      s.log = [Txn.read40 0xad, Txn.read40 0xae] := by
  have hv : raa_dmpvr2_verify_device dv ⟨0, []⟩ cfg =
      (Int.lor (memcmpN cfg.dev_id ((readBytes dv 0).drop 1) 4)
               (memcmpN (cfg.dev_rev.drop 3) ((readBytes dv 1).drop 4) 1),
       ⟨2, [Txn.read40 0xad, Txn.read40 0xae]⟩) := by
    simp [raa_dmpvr2_verify_device, raa_smbus_read40, doTxn, hid, hrev]
  have hvne : Int.lor (memcmpN cfg.dev_id ((readBytes dv 0).drop 1) 4)
      (memcmpN (cfg.dev_rev.drop 3) ((readBytes dv 1).drop 4) 1) ≠ 0 := by
    intro h0
    obtain ⟨ha, hb⟩ := (int_lor_eq_zero_iff _ _).mp h0
    rcases hmism with ⟨i, hi, hne⟩ | hne
    · have hq := (memcmpN_eq_zero_iff 4 _ _).mp ha i hi
      rw [getD_drop_nat, Nat.add_comm 1 i] at hq
      exact hne hq
    · have hq := (memcmpN_eq_zero_iff 1 _ _).mp hb 0 (by norm_num)
      rw [getD_drop_nat, getD_drop_nat] at hq
      simp only [Nat.add_zero] at hq
      exact hne hq
  have hw : raa_dmpvr2_write_cfg dv fuel buf = some
      (Int.lor (memcmpN cfg.dev_id ((readBytes dv 0).drop 1) 4)
               (memcmpN (cfg.dev_rev.drop 3) ((readBytes dv 1).drop 4) 1),
       ⟨2, [Txn.read40 0xad, Txn.read40 0xae]⟩) := by
    simp only [raa_dmpvr2_write_cfg]
    rw [hparse]
    simp only [hv]
    rw [if_pos hvne]
  exact ⟨_, _, hw, hvne, rfl⟩

/-- Claim C2 witness: on `blob648` and a device whose id read differs in
one byte, programming stops after the two identity reads. -/
theorem c2_identity_gating_witness :
    raa_dmpvr2_parse_cfg blob648 = .ok cfg648 ∧
    cfg648.dev_id.getD 0 0 ≠ (readBytes devMism 0).getD 1 0 ∧
    (∃ r s, raa_dmpvr2_write_cfg devMism 1 blob648 = some (r, s) ∧ r ≠ 0 ∧
      s.log = [Txn.read40 0xad, Txn.read40 0xae]) :=
  ⟨rfl, by decide,
   c2_identity_gating devMism blob648 cfg648 1 rfl rfl rfl
     (Or.inl ⟨0, by norm_num, by decide⟩)⟩

/-- Claim C7: `raa_dmpvr2_verify_device` returns the bitwise OR of its two
`memcmp` results; on a device whose first id byte is below the config's,
that value is the positive number 1, and `raa_dmpvr2_write_cfg` hands it
back unchanged as the ssize_t result of the program endpoint, where a
positive value reads as a count of bytes consumed. -/
theorem c7_positive_error_as_count :
    (raa_dmpvr2_verify_device devMism ⟨0, []⟩ cfg648).1 =
      Int.lor (memcmpN cfg648.dev_id ((readBytes devMism 0).drop 1) 4)
              (memcmpN (cfg648.dev_rev.drop 3) ((readBytes devMism 1).drop 4) 1) ∧
    (raa_dmpvr2_verify_device devMism ⟨0, []⟩ cfg648).1 = 1 ∧
    raa_dmpvr2_write_cfg devMism 1 blob648 =
      some (1, ⟨2, [Txn.read40 0xad, Txn.read40 0xae]⟩) ∧
    (0 : Int) < 1 :=
  ⟨rfl, rfl, rfl, by norm_num⟩

/-- Claim C3 counterexample: `blob649` has 649 lines, so
`(total_lines - 290) / 358 = 359 / 358` is not an integer; the claim would
demand an `InvalidFormat` failure, but the parser truncates the quotient
to 1 and succeeds, producing a `ParsedConfig`. -/
theorem c3_counterexample :
    1 + (countNl blob649).1 = 649 ∧
    ¬ (358 ∣ (649 - 290)) ∧
    raa_dmpvr2_parse_cfg blob649 = .ok cfg648 :=
  ⟨rfl, by decide, rfl⟩

/-- Claim C3 amended: whenever the truncated C quotient
`(total_lines - 290) / 358` lies outside `[1, 16]`, parsing fails with
`-EINVAL` and no config is produced.  A non-integral exact quotient is
not itself grounds for rejection: the counterexample exhibits a 649-line
blob (quotient 359/358, truncated to 1) that parses successfully.
(Other parse paths, such as hex-decode failures, can also return
`-EINVAL` with an in-range quotient; this theorem settles only the
out-of-range direction.) -/
theorem c3_amended (buf : List Char)
    (h : Int.tdiv (((1 + (countNl buf).1 : Nat) : Int) - 290) 358 < 1 ∨
         Int.tdiv (((1 + (countNl buf).1 : Nat) : Int) - 290) 358 > 16) :
    raa_dmpvr2_parse_cfg buf = .error (-22) := by
  simp only [raa_dmpvr2_parse_cfg]
  rw [if_pos h]

/-- Claim C3 witness: a five-character two-line input has truncated
quotient 0 and is rejected with `-EINVAL`. -/
theorem c3_amended_witness :
    (Int.tdiv (((1 + (countNl ("ab\ncd".toList)).1 : Nat) : Int) - 290) 358 < 1 ∨
     Int.tdiv (((1 + (countNl ("ab\ncd".toList)).1 : Nat) : Int) - 290) 358 > 16) ∧
    raa_dmpvr2_parse_cfg ("ab\ncd".toList) = .error (-22) :=
  ⟨by decide, c3_amended ("ab\ncd".toList) (by decide)⟩

/-- Claim C4 counterexample: a blob whose single command line declares
length `06` parses successfully into a command of length 3, which is
neither 2 nor 4 — the parser does not enforce the length invariant. -/
theorem c4_counterexample : parsedLens blobLen3 = some [3] := rfl

/-- Claim C4 amended: the parser accepts commands whose decoded length is
neither 2 nor 4; such a command is rejected with `-EINVAL` by
`raa_dmpvr2_send_cfg` when the sending loop reaches it, so it is treated
as malformed at send time rather than at parse time. -/
theorem c4_amended (dv : Dev) (s : St) (c : RaaDmpvrCfgCmd)
    (rest : List RaaDmpvrCfgCmd) (h2 : c.len ≠ 2) (h4 : c.len ≠ 4) :
    sendCmds dv s (c :: rest) = (-22, s) := by
  simp [sendCmds, h2, h4]

/-- Claim C4 witness: a length-3 command is rejected immediately by the
sending loop. -/
theorem c4_amended_witness :
    ((⟨0x10, 3, [1, 2, 3]⟩ : RaaDmpvrCfgCmd).len ≠ 2) ∧
    sendCmds devZero ⟨0, []⟩ [⟨0x10, 3, [1, 2, 3]⟩] = (-22, ⟨0, []⟩) :=
  ⟨by decide, c4_amended devZero ⟨0, []⟩ ⟨0x10, 3, [1, 2, 3]⟩ [] (by decide) (by decide)⟩

/-- Claim C5 counterexample: on a device whose transfers all fail with
status `-5`, the very 4-byte read `raa_dmpvr2_check_cfg` issues returns
`-5`, yet `raa_dmpvr2_check_cfg` ignores it and reports success `0` using
whatever bytes sit in the buffer — the transport error is not
propagated. -/
theorem c5_counterexample :
    (raa_dmpvr2_smbus_read32 devFail ⟨1, [Txn.writeWord 0xc7 0xc2]⟩ 0xc6).1 = -5 ∧
    raa_dmpvr2_check_cfg devFail ⟨0, []⟩ cfg648 =
      (0, ⟨2, [Txn.writeWord 0xc7 0xc2, Txn.read32 0xc6]⟩) :=
  ⟨rfl, rfl⟩

/-- Claim C5 amended: `raa_dmpvr2_verify_device` and the sending loop do
propagate a negative transfer status immediately, but
`raa_dmpvr2_check_cfg` ignores the statuses of both of its transactions:
its result depends only on the buffer bytes of its read. -/
theorem c5_amended (dv : Dev) (s : St) (cfg : RaaDmpvr2Cfg) (c : RaaDmpvrCfgCmd)
    (rest : List RaaDmpvrCfgCmd) (t : Int) (bs : List Nat)
    (hresp : dv.resp s.n = (t, bs)) (ht : t < 0) (hc2 : c.len = 2) :
    (raa_dmpvr2_verify_device dv s cfg).1 = t ∧
    (sendCmds dv s (c :: rest)).1 = t ∧
    (raa_dmpvr2_check_cfg dv s cfg).1 =
      (if ((readBytes dv (s.n + 1)).getD 0 0 : Int) < cfg.slot_cnt then -22 else 0) := by
  have ht2 : t ≠ 2 := by omega
  have ht0 : t ≠ 0 := by omega
  refine ⟨?_, ?_, ?_⟩
  · simp [raa_dmpvr2_verify_device, raa_smbus_read40, doTxn, hresp, ht2, ht0]
  · simp [sendCmds, hc2, i2c_smbus_write_word_data, doTxn, hresp, ht]
  · simp [raa_dmpvr2_check_cfg, i2c_smbus_write_word_data,
      raa_dmpvr2_smbus_read32, doTxn, apply_ite]

/-- Claim C5 witness: with every transfer failing with `-5`, the verifier
and sender return `-5`, while the capacity check's result is computed from
the buffer bytes alone. -/
theorem c5_amended_witness :
    (devFail.resp 0).1 = -5 ∧
    (raa_dmpvr2_verify_device devFail ⟨0, []⟩ cfg648).1 = -5 ∧
    (sendCmds devFail ⟨0, []⟩ [⟨0x10, 2, [1, 2]⟩]).1 = -5 ∧
    (raa_dmpvr2_check_cfg devFail ⟨0, []⟩ cfg648).1 =
      (if ((readBytes devFail 1).getD 0 0 : Int) < cfg648.slot_cnt then -22 else 0) := by
  have h := c5_amended devFail ⟨0, []⟩ cfg648 ⟨0x10, 2, [1, 2]⟩ [] (-5) [16, 0, 0, 0]
    rfl (by norm_num) rfl
  exact ⟨rfl, h.1, h.2.1, h.2.2⟩

/-! ## Polling-loop lemmas for claim C6 -/

theorem pollLoop_zero_eq (dv : Dev) (dl : Nat) (s : St) (d0 : Nat) :
    pollLoop dv dl 0 s d0 =
      if d0 ≠ 0 ∨ dl < dv.clock s.n then some (d0, s) else none := rfl

theorem pollLoop_succ_eq (dv : Dev) (dl f : Nat) (s : St) (d0 : Nat) :
    pollLoop dv dl (f + 1) s d0 =
      if d0 ≠ 0 ∨ dl < dv.clock s.n then some (d0, s)
      else pollLoop dv dl f ⟨s.n + 1, s.log ++ [Txn.read32 0xc5]⟩
        ((readBytes dv s.n).getD 0 0) := rfl

theorem pollLoop_exit (dv : Dev) (dl fuel : Nat) (s : St) (d0 : Nat) (h : d0 ≠ 0) :
    pollLoop dv dl fuel s d0 = some (d0, s) := by
  cases fuel with
  | zero => rw [pollLoop_zero_eq, if_pos (Or.inl h)]
  | succ f => rw [pollLoop_succ_eq, if_pos (Or.inl h)]

theorem pollLoop_all_zero (dv : Dev) (deadline : Nat)
    (h0 : ∀ n, (readBytes dv n).getD 0 0 = 0) :
    ∀ (fuel : Nat) (s : St) (m : Nat), m ≤ fuel →
      deadline < dv.clock (s.n + m) →
      ∃ s', pollLoop dv deadline fuel s 0 = some (0, s') ∧
        deadline < dv.clock s'.n := by
  intro fuel
  induction fuel with
  | zero =>
    intro s m hm hc
    have hm0 : m = 0 := Nat.le_zero.mp hm
    subst hm0
    rw [Nat.add_zero] at hc
    exact ⟨s, by rw [pollLoop_zero_eq, if_pos (Or.inr hc)], hc⟩
  | succ f ih =>
    intro s m hm hc
    by_cases hcs : deadline < dv.clock s.n
    · exact ⟨s, by rw [pollLoop_succ_eq, if_pos (Or.inr hcs)], hcs⟩
    · have hm0 : m ≠ 0 := by
        intro hx
        subst hx
        rw [Nat.add_zero] at hc
        exact hcs hc
      obtain ⟨m', rfl⟩ : ∃ m', m = m' + 1 := ⟨m - 1, by omega⟩
      rw [pollLoop_succ_eq, if_neg (by simp [hcs]), h0 s.n]
      exact ih ⟨s.n + 1, s.log ++ [Txn.read32 0xc5]⟩ m' (by omega)
        (by
          show deadline < dv.clock (s.n + 1 + m')
          rw [show s.n + 1 + m' = s.n + (m' + 1) by omega]
          exact hc)

/-- Claim C6 counterexample: a device that reports status byte 2 (nonzero
but never 1) on every poll read receives `-ETIME` immediately after the
first read, although the observed clock never exceeds the 2-second budget
— the claim's "not earlier" fails. -/
theorem c6_counterexample :
    raa_dmpvr2_cfg_write_result devBusy2 5 ⟨0, []⟩ cfg648 =
      some (-62, ⟨2, [Txn.writeWord 0xc7 0x707, Txn.read32 0xc5]⟩) ∧
    devBusy2.clock 2 ≤ devBusy2.clock 0 + devBusy2.hz + devBusy2.hz ∧
    (readBytes devBusy2 1).getD 0 0 ≠ 1 :=
  ⟨rfl, by decide, by decide⟩

/-- Claim C6 amended: if the device reports status byte 0 on every poll
read, `raa_dmpvr2_cfg_write_result` returns `-ETIME = -62`, and only at a
poll check whose observed `jiffies` strictly exceed `start + 2·HZ` (never
earlier), as soon as the clock passes that deadline (given enough fuel —
the loop does not run indefinitely once the clock passes the deadline).
If the device instead reports a nonzero byte other than 1, `-ETIME` can
be returned before the budget elapses. -/
theorem c6_amended (dv : Dev) (fuel m : Nat) (s : St) (cfg : RaaDmpvr2Cfg)
    (h0 : ∀ n, (readBytes dv n).getD 0 0 = 0)
    (hm : m ≤ fuel)
    (hclk : dv.clock s.n + dv.hz + dv.hz < dv.clock (s.n + 1 + m)) :
    ∃ s', raa_dmpvr2_cfg_write_result dv fuel s cfg = some (-62, s') ∧
      dv.clock s.n + dv.hz + dv.hz < dv.clock s'.n := by
  obtain ⟨s', hp, hcl⟩ := pollLoop_all_zero dv (dv.clock s.n + dv.hz + dv.hz) h0 fuel
    ⟨s.n + 1, s.log ++ [Txn.writeWord 0xc7 0x707]⟩ m hm hclk
  refine ⟨s', ?_, hcl⟩
  simp only [raa_dmpvr2_cfg_write_result, i2c_smbus_write_word_data, doTxn]
  rw [hp]
  simp

/-- Claim C6 witness: a device with an advancing clock (`HZ = 1`) that
always reports byte 0 gets `-ETIME`, with the exiting check past the
deadline. -/
theorem c6_amended_witness :
    (readBytes devZeroTick 0).getD 0 0 = 0 ∧
    (∃ s', raa_dmpvr2_cfg_write_result devZeroTick 5 ⟨0, []⟩ cfg648 = some (-62, s') ∧
      devZeroTick.clock 0 + devZeroTick.hz + devZeroTick.hz < devZeroTick.clock s'.n) :=
  ⟨rfl, c6_amended devZeroTick 5 3 ⟨0, []⟩ cfg648 (fun n => rfl) (by norm_num) (by decide)⟩

/-! ## Slot-status lemmas for claim C9 -/

theorem checkSlots_succ (b0 b1 : List Nat) (k i : Nat) :
    checkSlots b0 b1 (k + 1) i =
      if nibbleSpec b0 b1 i ≠ 1 then -5 else checkSlots b0 b1 k (i + 1) := by
  by_cases h8 : i < 8 <;> simp [checkSlots, nibbleSpec, h8]

theorem checkSlots_hits_first_bad (b0 b1 : List Nat) :
    ∀ (k off i : Nat), off ≤ i → i < off + k →
      nibbleSpec b0 b1 i ≠ 1 → (∀ j, off ≤ j → j < i → nibbleSpec b0 b1 j = 1) →
      checkSlots b0 b1 k off = -5 := by
  intro k
  induction k with
  | zero =>
    intro off i h1 h2 _ _
    omega
  | succ k ih =>
    intro off i hoff hlt hbad hgood
    rw [checkSlots_succ]
    by_cases heq : off = i
    · subst heq
      rw [if_pos hbad]
    · have hone : nibbleSpec b0 b1 off = 1 := hgood off le_rfl (by omega)
      rw [if_neg (by simp [hone])]
      exact ih (off + 1) i (by omega) (by omega) hbad
        (fun j hj1 hj2 => hgood j (by omega) hj2)

/-- Claim C9: when the device reports programming completion at the first
poll read and the bank-status reads give bytes `b0`/`b1`, then for any
slot index `i` below `slot_cnt` whose 4-bit status — extracted as
`(bank0_byte[i/2] >> (4*(i%2))) & 0xF` for `i < 8` and as the equivalent
nibble of bank 1 at `i - 8` otherwise — is not 1, while every earlier
slot's nibble is 1, `raa_dmpvr2_cfg_write_result` returns the slot-failure
error `-EIO = -5` (later nibbles are never consulted). -/
theorem c9_slot_decoding (dv : Dev) (fuel : Nat) (s : St) (cfg : RaaDmpvr2Cfg)
    (i : Nat) (b0 b1 : List Nat)
    (h1 : (readBytes dv (s.n + 1)).getD 0 0 = 1)
    (hclk : dv.clock (s.n + 1) ≤ dv.clock s.n + dv.hz + dv.hz)
    (hb0 : readBytes dv (s.n + 3) = b0)
    (hb1 : readBytes dv (s.n + 5) = b1)
    (hi : i < cfg.slot_cnt.toNat)
    (hbad : nibbleSpec b0 b1 i ≠ 1)
    (hgood : ∀ j, j < i → nibbleSpec b0 b1 j = 1) :
    (raa_dmpvr2_cfg_write_result dv (fuel + 1) s cfg).map Prod.fst = some (-5) := by
  have hcs : checkSlots b0 b1 cfg.slot_cnt.toNat 0 = -5 :=
    checkSlots_hits_first_bad b0 b1 cfg.slot_cnt.toNat 0 i (Nat.zero_le _) (by omega)
      hbad (fun j _ hj => hgood j hj)
  have hnotlt : ¬ (dv.clock s.n + dv.hz + dv.hz < dv.clock (s.n + 1)) := by omega
  have h1' : (readBytes dv (s.n + 1))[0]?.getD 0 = 1 := by simpa using h1
  simp only [raa_dmpvr2_cfg_write_result, i2c_smbus_write_word_data, doTxn,
    raa_dmpvr2_smbus_read32]
  rw [pollLoop_succ_eq]
  simp [hnotlt, h1', pollLoop_exit, hb0, hb1, hcs]

/-- Claim C9 witness: bank-0 bytes `0x11, 0x21` give slot nibbles
`1, 1, 1, 2`; with 4 slots configured, slot 3 is the first bad slot and
the result is `-EIO`. -/
theorem c9_slot_decoding_witness :
    nibbleSpec [0x11, 0x21, 0, 0] [0, 0, 0, 0] 3 ≠ 1 ∧
    (raa_dmpvr2_cfg_write_result devBanks 1 ⟨0, []⟩ cfgSlots4).map Prod.fst =
      some (-5) :=
  ⟨by decide,
   c9_slot_decoding devBanks 0 ⟨0, []⟩ cfgSlots4 3 [0x11, 0x21, 0, 0] [0, 0, 0, 0]
     rfl (by decide) rfl rfl (by decide) (by decide) (by decide)⟩

/-! ## Black-box reader lemmas for claims C8 and C10 -/

theorem bbLoop_succ_eq (dv : Dev) (s : St) (k : Nat) (acc : List Char) :
    bbLoop dv s (k + 1) acc =
      bbLoop dv ⟨s.n + 1, s.log ++ [Txn.read32 0xc6]⟩ k
        (acc ++ renderWord (readBytes dv s.n)) := rfl

theorem bbLoop_out (dv : Dev) :
    ∀ (k : Nat) (s : St) (acc : List Char),
      (bbLoop dv s k acc).1 =
        acc ++ ((List.range k).map fun i => renderWord (readBytes dv (s.n + i))).flatten := by
  intro k
  induction k with
  | zero =>
    intro s acc
    simp [bbLoop]
  | succ k ih =>
    intro s acc
    rw [bbLoop_succ_eq, ih]
    rw [List.range_succ_eq_map]
    simp only [List.map_cons, List.flatten_cons, List.map_map, Function.comp_def,
      Nat.add_zero, List.append_assoc]
    have he : (fun i => renderWord (readBytes dv (s.n + 1 + i))) =
        fun x => renderWord (readBytes dv (s.n + x.succ)) := by
      funext x
      rw [show s.n + 1 + x = s.n + x.succ by omega]
    rw [he]

theorem renderWord_length (bs : List Nat) : (renderWord bs).length = 9 := by
  simp [renderWord, hexPair]

theorem bbLoop_length (dv : Dev) :
    ∀ (k : Nat) (s : St) (acc : List Char),
      (bbLoop dv s k acc).1.length = acc.length + 9 * k := by
  intro k
  induction k with
  | zero =>
    intro s acc
    simp [bbLoop]
  | succ k ih =>
    intro s acc
    rw [bbLoop_succ_eq, ih]
    simp [renderWord_length]
    omega

theorem bbLoop_log (dv : Dev) :
    ∀ (k : Nat) (s : St) (acc : List Char),
      (bbLoop dv s k acc).2.log = s.log ++ List.replicate k (Txn.read32 0xc6) := by
  intro k
  induction k with
  | zero =>
    intro s acc
    simp [bbLoop]
  | succ k ih =>
    intro s acc
    rw [bbLoop_succ_eq, ih]
    simp [List.replicate_succ]

theorem readBytes_lt (dv : Dev) (n : Nat) : ∀ b ∈ readBytes dv n, b < 256 := by
  intro b hb
  simp only [readBytes, List.mem_map] at hb
  obtain ⟨x, _, rfl⟩ := hb
  exact Nat.mod_lt _ (by norm_num)

theorem getD_lt_256 (bs : List Nat) (h : ∀ b ∈ bs, b < 256) :
    ∀ i, bs.getD i 0 < 256 := by
  induction bs with
  | nil =>
    intro i
    simp [List.getD]
  | cons a t ih =>
    intro i
    cases i with
    | zero => exact h a (by simp)
    | succ j =>
      rw [List.getD_cons_succ]
      exact ih (fun b hb => h b (by simp [hb])) j

theorem hexDigitU_range (n : Nat) (h : n < 16) :
    (48 ≤ (hexDigitU n).toNat ∧ (hexDigitU n).toNat ≤ 57) ∨
    (65 ≤ (hexDigitU n).toNat ∧ (hexDigitU n).toNat ≤ 70) := by
  have hall : ∀ m, m < 16 →
      (48 ≤ (hexDigitU m).toNat ∧ (hexDigitU m).toNat ≤ 57) ∨
      (65 ≤ (hexDigitU m).toNat ∧ (hexDigitU m).toNat ≤ 70) := by decide
  exact hall n h

theorem renderWord_chars (bs : List Nat) (h : ∀ b ∈ bs, b < 256) :
    ∀ c ∈ renderWord bs,
      c = '\n' ∨ (48 ≤ c.toNat ∧ c.toNat ≤ 57) ∨ (65 ≤ c.toNat ∧ c.toNat ≤ 70) := by
  have hb := getD_lt_256 bs h
  have hdig : ∀ i : Nat, ∀ c ∈ hexPair (bs.getD i 0),
      (48 ≤ c.toNat ∧ c.toNat ≤ 57) ∨ (65 ≤ c.toNat ∧ c.toNat ≤ 70) := by
    intro i c hc
    have hlo : bs.getD i 0 / 16 < 16 := by
      have := hb i
      omega
    have hhi : bs.getD i 0 % 16 < 16 := Nat.mod_lt _ (by norm_num)
    simp only [hexPair, List.mem_cons, List.not_mem_nil, or_false] at hc
    rcases hc with rfl | rfl
    · exact hexDigitU_range _ hlo
    · exact hexDigitU_range _ hhi
  intro c hc
  simp only [renderWord, List.mem_append, List.mem_cons, List.not_mem_nil,
    or_false] at hc
  rcases hc with ((((hx | hx) | hx) | hx) | rfl)
  · exact Or.inr (hdig 0 c hx)
  · exact Or.inr (hdig 1 c hx)
  · exact Or.inr (hdig 2 c hx)
  · exact Or.inr (hdig 3 c hx)
  · exact Or.inl rfl

theorem bb_out_eq (dv : Dev) (s : St) :
    raa_dmpvr2_bb_out dv s =
      bbLoop dv ⟨s.n + 1, s.log ++ [Txn.writeWord 0xc7 0xef80]⟩ 32 [] := rfl

/-- Claim C10: for any device responses, the black-box reader's internal
output buffer is the order-preserving concatenation of the renderings of
the 32 words read (each word: 8 uppercase hexadecimal characters in byte
order followed by a newline); the buffer is exactly 288 characters and
every character is a newline, a decimal digit, or an uppercase `A`-`F`. -/
theorem c10_black_box_rendering (dv : Dev) (s : St) :
    (raa_dmpvr2_bb_out dv s).1 =
      ((List.range 32).map fun i => renderWord (readBytes dv (s.n + 1 + i))).flatten ∧
    (raa_dmpvr2_bb_out dv s).1.length = 288 ∧
    ∀ c ∈ (raa_dmpvr2_bb_out dv s).1,
      c = '\n' ∨ (48 ≤ c.toNat ∧ c.toNat ≤ 57) ∨ (65 ≤ c.toNat ∧ c.toNat ≤ 70) := by
  have h1 : (raa_dmpvr2_bb_out dv s).1 =
      ((List.range 32).map fun i => renderWord (readBytes dv (s.n + 1 + i))).flatten := by
    rw [bb_out_eq, bbLoop_out]
    simp
  refine ⟨h1, ?_, ?_⟩
  · rw [bb_out_eq, bbLoop_length]
    norm_num
  · intro c hc
    rw [h1] at hc
    simp only [List.mem_flatten, List.mem_map, List.mem_range] at hc
    obtain ⟨L, ⟨i, _, rfl⟩, hcL⟩ := hc
    exact renderWord_chars _ (readBytes_lt dv _) c hcL

/-- Claim C8 counterexample: a dump request for 10 bytes at offset 0
returns 10 bytes, not the full 288-byte snapshot. -/
theorem c8_counterexample :
    (raa_dmpvr2_read_black_box devZero ⟨0, []⟩ 10 0).1 = 10 ∧ ((10 : Int) ≠ 288) :=
  ⟨rfl, by norm_num⟩

/-- Claim C8 amended: every invocation of the dump endpoint regenerates
the full snapshot — one window-select write plus 32 sequential reads are
issued regardless of the requested length and offset — but the ssize_t
result follows standard buffer-read semantics: `-EINVAL` for a negative
offset, 0 at or past end-of-buffer or for a zero-length request, and
otherwise `min(len, 288 - pos)` bytes from offset `pos`.  The full
288-byte snapshot is returned only when `pos = 0` and `len ≥ 288`. -/
theorem c8_amended (dv : Dev) (s : St) (len : Nat) (pos : Int) :
    (raa_dmpvr2_read_black_box dv s len pos).1 =
      (if pos < 0 then -22
       else if (288 : Int) ≤ pos ∨ len = 0 then 0
       else ((min len (288 - pos.toNat) : Nat) : Int)) ∧
    (raa_dmpvr2_read_black_box dv s len pos).2.2.log =
      s.log ++ Txn.writeWord 0xc7 0xef80 :: List.replicate 32 (Txn.read32 0xc6) := by
  have hlog : (raa_dmpvr2_bb_out dv s).2.log =
      s.log ++ Txn.writeWord 0xc7 0xef80 :: List.replicate 32 (Txn.read32 0xc6) := by
    rw [bb_out_eq, bbLoop_log]
    simp
  constructor
  · simp only [raa_dmpvr2_read_black_box]
    split_ifs <;> rfl
  · simp only [raa_dmpvr2_read_black_box]
    split_ifs <;> exact hlog

end Isl68137

